import Mathlib

/-!
Verification of `binlog-find-time` (`internal/binlog/binlog.go`)

Shallow embedding of the two core functions of the repository:

* `GetTimeRangeForBinlog` — scans the event stream of one binlog segment and
  returns the timestamps of its first and last timestamped events;
* `BinarySearchBinlogs` — binary search over the ordered binlog file list,
  with a per-search range cache, an extraction-failure counter, and a
  closest-preceding-segment fallback.

The MySQL replication stream is modelled as a `List BinlogEvent`: `GetEvent`
consumes the next event of the list and fails when the list is exhausted.
Timestamps are the `uint32` header values (`Nat`); a value of `0` means "no
timestamp".  The context timeout of the Go code is a real-time mechanism and
is not part of the functional model (its branches never fire here).
-/

namespace BinlogFindTime

/-- Event types distinguished by the Go code: `ROTATE_EVENT` vs anything else. -/
inductive EventType where
  | rotate
  | other
  deriving DecidableEq

/-- One replication event: header event type, header timestamp (`uint32`, `0`
meaning "no timestamp"), and — meaningful for rotate events only — the
`NextLogName` payload. -/
structure BinlogEvent where
  eventType : EventType
  timestamp : Nat
  nextLogName : String
  deriving DecidableEq

/-- The two error outcomes of `GetTimeRangeForBinlog` in the model:
`GetEvent` failed (stream exhausted), or no timestamped event was found
within the 10-attempt bound. -/
inductive ExtractError where
  | getEventFailed
  | noTimestampFound
  deriving DecidableEq

/-- The guard of the `continue` statement in the first loop of
`GetTimeRangeForBinlog` (binlog.go lines 92–101): the event is a rotate
event, its `NextLogName` differs from the file being read, and — nested
inside that — `i == 0 && nextFile == binlogFile`. -/
def firstTimestampGuard (i : Nat) (ev : BinlogEvent) (binlogFile : String) : Bool :=
  ev.eventType == EventType.rotate && ev.nextLogName != binlogFile
    && (i == 0 && ev.nextLogName == binlogFile)

/-- First loop of `GetTimeRangeForBinlog` (lines 81–111): up to 10 `GetEvent`
calls looking for the first event with a positive timestamp.  `i` is the Go
loop counter, the `Nat` argument the remaining attempts.  Returns the first
positive timestamp together with the unread remainder of the stream. -/
def findFirstTimestampAux (binlogFile : String) :
    Nat → Nat → List BinlogEvent → Except ExtractError (Nat × List BinlogEvent)
  | _, 0, _ => Except.error ExtractError.noTimestampFound
  | _, _ + 1, [] => Except.error ExtractError.getEventFailed
  | i, n + 1, ev :: rest =>
    if firstTimestampGuard i ev binlogFile then
      findFirstTimestampAux binlogFile (i + 1) n rest
    else if 0 < ev.timestamp then
      Except.ok (ev.timestamp, rest)
    else
      findFirstTimestampAux binlogFile (i + 1) n rest

/-- The first loop, entered at `i = 0` with 10 attempts. -/
def findFirstTimestamp (binlogFile : String) (stream : List BinlogEvent) :
    Except ExtractError (Nat × List BinlogEvent) :=
  findFirstTimestampAux binlogFile 0 10 stream

/-- Variant of the first loop with the `continue` branch removed, used to
state that the branch is dead code. -/
def findFirstTimestampNoSkipAux (binlogFile : String) :
    Nat → List BinlogEvent → Except ExtractError (Nat × List BinlogEvent)
  | 0, _ => Except.error ExtractError.noTimestampFound
  | _ + 1, [] => Except.error ExtractError.getEventFailed
  | n + 1, ev :: rest =>
    if 0 < ev.timestamp then
      Except.ok (ev.timestamp, rest)
    else
      findFirstTimestampNoSkipAux binlogFile n rest

/-- The skip-free first loop, with the same 10-attempt budget. -/
def findFirstTimestampNoSkip (binlogFile : String) (stream : List BinlogEvent) :
    Except ExtractError (Nat × List BinlogEvent) :=
  findFirstTimestampNoSkipAux binlogFile 10 stream

/-- Second loop of `GetTimeRangeForBinlog` (lines 127–147): read up to 1000
further events, remembering the most recent positive timestamp; a `GetEvent`
error ends the loop and the last value stands. -/
def scanLastTimestamp : Nat → List BinlogEvent → Nat → Nat
  | 0, _, last => last
  | _ + 1, [], last => last
  | n + 1, ev :: rest, last =>
    scanLastTimestamp n rest (if 0 < ev.timestamp then ev.timestamp else last)

/-- Embedding of `GetTimeRangeForBinlog` (binlog.go lines 63–162) on the event stream of
`binlogFile`: find the first positive timestamp within 10 attempts, then scan
up to 1000 further events for the last positive timestamp.  On success the
Go code returns `time.Unix(first)` and `time.Unix(last)`; the model keeps the
underlying `uint32` second counts, which `time.Unix` maps monotonically to
`time.Time`. -/
def GetTimeRangeForBinlog (binlogFile : String) (stream : List BinlogEvent) :
    Except ExtractError (Nat × Nat) :=
  match findFirstTimestamp binlogFile stream with
  | Except.error e => Except.error e
  | Except.ok (first, rest) => Except.ok (first, scanLastTimestamp 1000 rest first)

/-!
Search engine

`BinarySearchBinlogs` is parametrised by an extraction oracle
`extract : String → Option (Int × Int)` standing for one call of
`GetTimeRangeForBinlog` on a fresh syncer: `some (start, end)` on success,
`none` on error.  Times are modelled as `Int` (Unix seconds; `t.Before s` is
`t < s`, `t.After s` is `s < t`).  The `timeRanges`/`validFiles` maps of the
Go code (always updated together, with the same keys) are modelled as one
association list in insertion order.  The invocations of the oracle are
recorded in a trace list, the observable side effect of each
`GetTimeRangeForBinlog` call.
-/

/-- One search state's range cache: segment name with its `(start, end)`. -/
abbrev RangeCache := List (String × Int × Int)

/-- Go computes `mid := left + (right-left)/2` on non-negative operands;
Nat division of `(right - left).toNat` by 2 yields the same value. -/
def midIndex (left right : Int) : Int :=
  left + ((right - left).toNat / 2 : Nat)

/-- The file probed at `mid`: `binlogFiles[mid]` of the Go code (total via a
default that is never reached while `mid` stays in bounds). -/
def probeName (files : List String) (left right : Int) : String :=
  files.getD (midIndex left right).toNat ("")

/-- The binary-search loop of `BinarySearchBinlogs` (binlog.go lines
202-255).  Returns `(some name, cache, trace)` on exact containment and
`(none, cache, trace)` when the loop exits via `left > right` or the
error-count break. -/
def searchLoop (extract : String → Option (Int × Int)) (files : List String)
    (target : Int) (left right : Int) (errorCount : Nat)
    (cache : List (String × Int × Int)) (trace : List String) :
    Option String × List (String × Int × Int) × List String :=
  if h : left ≤ right then
    match List.lookup (probeName files left right) cache with
    | some (s, e) =>
      if s ≤ target ∧ target ≤ e then
        (some (probeName files left right), cache, trace)
      else if target < s then
        searchLoop extract files target left (midIndex left right - 1) errorCount
          cache trace
      else
        searchLoop extract files target (midIndex left right + 1) right errorCount
          cache trace
    | none =>
      match extract (probeName files left right) with
      | none =>
        if errorCount + 1 > 3 then
          (none, cache, trace ++ [probeName files left right])
        else if 0 < midIndex left right then
          searchLoop extract files target left (midIndex left right - 1)
            (errorCount + 1) cache (trace ++ [probeName files left right])
        else
          searchLoop extract files target (midIndex left right + 1) right
            (errorCount + 1) cache (trace ++ [probeName files left right])
      | some (s, e) =>
        if s ≤ target ∧ target ≤ e then
          (some (probeName files left right),
            cache ++ [(probeName files left right, s, e)],
            trace ++ [probeName files left right])
        else if target < s then
          searchLoop extract files target left (midIndex left right - 1) errorCount
            (cache ++ [(probeName files left right, s, e)])
            (trace ++ [probeName files left right])
        else
          searchLoop extract files target (midIndex left right + 1) right errorCount
            (cache ++ [(probeName files left right, s, e)])
            (trace ++ [probeName files left right])
  else
    (none, cache, trace)
termination_by (right + 1 - left).toNat
decreasing_by all_goals (simp only [midIndex]; omega)

/-- The fallback scan of `BinarySearchBinlogs` (lines 258–276): range over
the cached files, keeping the one with the latest `end` at or before the
target; `closestFile` starts as the empty-string sentinel and `closestEnd`
as the zero `time.Time` (never consulted while the sentinel is in place). -/
def fallbackClosest (target : Int) : RangeCache → String × Int → String × Int
  | [], acc => acc
  | p :: rest, acc =>
    fallbackClosest target rest
      (if p.2.2 ≤ target then
        (if acc.1 = "" ∨ acc.2 < p.2.2 then (p.1, p.2.2) else acc)
      else acc)

/-- Embedding of `BinarySearchBinlogs` (binlog.go lines 165–284): empty-list sentinel,
single-file direct check, binary-search loop, and the
closest-preceding-segment fallback.  The Go guard `len(validFiles) > 0`
around the fallback scan is subsumed: on an empty cache the scan leaves the
sentinel accumulator unchanged. -/
def BinarySearchBinlogs (extract : String → Option (Int × Int))
    (files : List String) (target : Int) : String × Bool :=
  if files.length = 0 then ("", false)
  else if files.length = 1 then
    match extract (files.getD 0 (("") : String)) with
    | none => (files.getD 0 (("") : String), false)
    | some (s, e) =>
      if s ≤ target ∧ target ≤ e then (files.getD 0 (("") : String), true)
      else (files.getD 0 (("") : String), false)
  else
    match searchLoop extract files target 0 ((files.length : Int) - 1) 0 [] [] with
    | (some name, _, _) => (name, true)
    | (none, cache, _) =>
      let closest := fallbackClosest target cache ("", 0)
      if closest.1 ≠ "" then (closest.1, false)
      else if 0 < files.length then (files.getD 0 (("") : String), false)
      else ("", false)

/-- The loop exactly as `BinarySearchBinlogs` enters it: full index range,
zero error count, empty cache and trace. -/
def searchRun (extract : String → Option (Int × Int)) (files : List String)
    (target : Int) : Option String × List (String × Int × Int) × List String :=
  searchLoop extract files target 0 ((files.length : Int) - 1) 0 [] []

/-!
Concrete instances used by witnesses and counterexamples
-/

/-- Extraction oracle of the spec's worked scenario:
seg1 covers 100–200, seg2 covers 201–300, seg3 covers 301–400. -/
def oracleScenario : String → Option (Int × Int) := fun n =>
  if n = "seg1" then some (100, 200)
  else if n = "seg2" then some (201, 300)
  else if n = "seg3" then some (301, 400)
  else none

/-- Oracle that succeeds only on the file named b; extraction of every other
file fails. -/
def oracleOnlyB : String → Option (Int × Int) := fun n =>
  if n = "b" then some (0, 10) else none

/-- Oracle on which every extraction fails. -/
def oracleFailAll : String → Option (Int × Int) := fun _ => none

/-- Oracle for the empty-name pathology: the file named by the empty string
has the later range. -/
def oracleEmptyLate : String → Option (Int × Int) := fun n =>
  if n = "a" then some (20, 30) else if n = "" then some (0, 50) else none

/-- Oracle for the empty-name pathology in the last position: the file named
by the empty string is the newest segment. -/
def oracleEmptyLast : String → Option (Int × Int) := fun n =>
  if n = "a" then some (20, 30) else if n = "" then some (40, 50) else none

/-- An event with no timestamp (such as a format-description event). -/
def evZero : BinlogEvent := ⟨EventType.other, 0, ""⟩

/-- A plain event carrying timestamp `t`. -/
def evAt (t : Nat) : BinlogEvent := ⟨EventType.other, t, ""⟩

/-!
Helper lemmas
-/

/-- The nested `continue` guard of the first loop never holds: it requires
the rotate payload both to differ from and to equal the current file. -/
lemma firstTimestampGuard_eq_false (i : Nat) (ev : BinlogEvent) (binlogFile : String) :
    firstTimestampGuard i ev binlogFile = false := by
  cases hb : ev.nextLogName == binlogFile with
  | false => simp [firstTimestampGuard, hb]
  | true =>
    simp only [firstTimestampGuard, hb]
    simp [eq_of_beq hb]

/-- With the dead guard removed, the two first-loop variants agree. -/
lemma findFirstTimestampAux_eq_noSkip (binlogFile : String) :
    ∀ (n : Nat) (i : Nat) (stream : List BinlogEvent),
      findFirstTimestampAux binlogFile i n stream =
        findFirstTimestampNoSkipAux binlogFile n stream := by
  intro n
  induction n with
  | zero => intro i stream; rfl
  | succ n ih =>
    intro i stream
    cases stream with
    | nil => rfl
    | cons ev rest =>
      simp only [findFirstTimestampAux, findFirstTimestampNoSkipAux,
        firstTimestampGuard_eq_false, if_false, Bool.false_eq_true, ih]

/-- If the first `n` events all lack a timestamp and at least `n` events are
available, the first loop exhausts its attempts and reports that no
timestamped event was found. -/
lemma findFirstTimestampAux_all_zero (binlogFile : String) :
    ∀ (n : Nat) (stream : List BinlogEvent) (i : Nat),
      n ≤ stream.length → (∀ ev ∈ stream.take n, ev.timestamp = 0) →
      findFirstTimestampAux binlogFile i n stream =
        Except.error ExtractError.noTimestampFound := by
  intro n
  induction n with
  | zero => intro stream i _ _; rfl
  | succ n ih =>
    intro stream i hlen hzero
    cases stream with
    | nil => simp at hlen
    | cons ev rest =>
      have hev : ev.timestamp = 0 := hzero ev (by simp)
      simp only [findFirstTimestampAux, firstTimestampGuard_eq_false,
        Bool.false_eq_true, if_false, hev]
      simp only [Nat.lt_irrefl, if_false]
      exact ih rest (i + 1) (by simpa using hlen)
        (fun e he => hzero e (by simp [List.take_cons]; right; exact he))

/-- If some event among the first `n` carries a positive timestamp, the first
loop succeeds. -/
lemma findFirstTimestampAux_found (binlogFile : String) :
    ∀ (n : Nat) (stream : List BinlogEvent) (i : Nat),
      (∃ ev ∈ stream.take n, 0 < ev.timestamp) →
      ∃ t rest, findFirstTimestampAux binlogFile i n stream = Except.ok (t, rest) := by
  intro n
  induction n with
  | zero => intro stream i h; simp at h
  | succ n ih =>
    intro stream i h
    cases stream with
    | nil => simp at h
    | cons ev rest =>
      simp only [findFirstTimestampAux, firstTimestampGuard_eq_false,
        Bool.false_eq_true, if_false]
      by_cases hev : 0 < ev.timestamp
      · exact ⟨ev.timestamp, rest, by simp [hev]⟩
      · have : ∃ e ∈ rest.take n, 0 < e.timestamp := by
          rcases h with ⟨e, he, hpos⟩
          rcases (by simpa [List.take_cons] using he : e = ev ∨ e ∈ rest.take n) with
            rfl | hmem
          · exact absurd hpos hev
          · exact ⟨e, hmem, hpos⟩
        simpa [hev] using ih rest (i + 1) this

/-- A successful first loop returns a positive timestamp belonging to some
event of the stream, and the unconsumed remainder is a suffix of the stream
starting right after that event. -/
lemma findFirstTimestampAux_ok_split (binlogFile : String) :
    ∀ (n : Nat) (stream : List BinlogEvent) (i : Nat) (t : Nat)
      (rest : List BinlogEvent),
      findFirstTimestampAux binlogFile i n stream = Except.ok (t, rest) →
      0 < t ∧ ∃ pre ev, stream = pre ++ ev :: rest ∧ ev.timestamp = t := by
  intro n
  induction n with
  | zero => intro stream i t rest h; simp [findFirstTimestampAux] at h
  | succ n ih =>
    intro stream i t rest h
    cases stream with
    | nil => simp [findFirstTimestampAux] at h
    | cons ev rest' =>
      simp only [findFirstTimestampAux, firstTimestampGuard_eq_false,
        Bool.false_eq_true, if_false] at h
      by_cases hev : 0 < ev.timestamp
      · rw [if_pos hev] at h
        obtain ⟨ht, hrest⟩ : ev.timestamp = t ∧ rest' = rest := by
          simpa using h
        subst hrest
        exact ⟨ht ▸ hev, [], ev, by simp, ht⟩
      · rw [if_neg hev] at h
        obtain ⟨hpos, pre, e, hsplit, het⟩ := ih rest' (i + 1) t rest h
        exact ⟨hpos, ev :: pre, e, by simp [hsplit], het⟩

/-- The second loop never drops below a lower bound satisfied by the
accumulator and by every positive timestamp in the remaining events. -/
lemma scanLastTimestamp_ge (lo : Nat) :
    ∀ (n : Nat) (rest : List BinlogEvent) (acc : Nat),
      lo ≤ acc → (∀ ev ∈ rest, 0 < ev.timestamp → lo ≤ ev.timestamp) →
      lo ≤ scanLastTimestamp n rest acc := by
  intro n
  induction n with
  | zero => intro rest acc hacc _; exact hacc
  | succ n ih =>
    intro rest acc hacc hall
    cases rest with
    | nil => exact hacc
    | cons ev rest' =>
      simp only [scanLastTimestamp]
      apply ih rest'
      · by_cases hev : 0 < ev.timestamp
        · simpa [hev] using hall ev (by simp) hev
        · simpa [hev] using hacc
      · exact fun e he hpos => hall e (by simp [he]) hpos

/-!
Helper lemmas about the search loop and the fallback scan
-/

lemma mem_getD_of_lt (l : List String) (k : Nat) (hk : k < l.length) :
    l.getD k ("") ∈ l := by
  rw [List.getD_eq_getElem l _ hk]
  exact List.getElem_mem hk

lemma lookup_append_some {l1 l2 : List (String × Int × Int)} {k : String}
    {v : Int × Int} (h : List.lookup k l1 = some v) :
    List.lookup k (l1 ++ l2) = some v := by
  induction l1 with
  | nil => simp [List.lookup] at h
  | cons p rest ih =>
    obtain ⟨k', v'⟩ := p
    rw [List.cons_append]
    cases hkp : (k == k') with
    | true =>
      simp only [List.lookup, hkp] at h ⊢
      exact h
    | false =>
      simp only [List.lookup, hkp] at h ⊢
      exact ih h

lemma lookup_append_none {l1 l2 : List (String × Int × Int)} {k : String}
    (h : List.lookup k l1 = none) :
    List.lookup k (l1 ++ l2) = List.lookup k l2 := by
  induction l1 with
  | nil => simp
  | cons p rest ih =>
    obtain ⟨k', v'⟩ := p
    rw [List.cons_append]
    cases hkp : (k == k') with
    | true =>
      simp only [List.lookup, hkp] at h
      exact Option.noConfusion h
    | false =>
      simp only [List.lookup, hkp] at h ⊢
      exact ih h

lemma midIndex_bounds {left right : Int} (h : left ≤ right) :
    left ≤ midIndex left right ∧ midIndex left right ≤ right := by
  unfold midIndex
  omega

lemma probeName_mem {files : List String} {left right : Int} (h0 : 0 ≤ left)
    (hlr : left ≤ right) (hlt : right < (files.length : Int)) :
    probeName files left right ∈ files := by
  have hm := midIndex_bounds hlr
  exact mem_getD_of_lt files _ (by omega)

lemma count_singleton_le {m n : String} (h : ¬ m = n) : List.count n [m] = 0 := by
  simp [List.count_cons, h]

lemma searchLoop_basic (extract : String → Option (Int × Int)) (files : List String)
    (target : Int) (n : String) :
    ∀ (left right : Int) (ec : Nat) (cache : List (String × Int × Int))
      (trace : List String),
      0 ≤ left → right < (files.length : Int) →
      (∀ p ∈ cache, p.1 ∈ files) → ec ≤ 3 →
      ((extract n).isSome →
        trace.count n ≤ (if (List.lookup n cache).isSome then 1 else 0)) →
      (∀ p ∈ cache, p ∈ (searchLoop extract files target left right ec cache trace).2.1) ∧
      (∀ p ∈ (searchLoop extract files target left right ec cache trace).2.1, p.1 ∈ files) ∧
      (∀ nm, (searchLoop extract files target left right ec cache trace).1 = some nm →
        nm ∈ files) ∧
      (((searchLoop extract files target left right ec cache trace).2.2.filter
          (fun nm => (extract nm).isNone)).length ≤
        (trace.filter (fun nm => (extract nm).isNone)).length + (4 - ec)) ∧
      ((extract n).isSome →
        (searchLoop extract files target left right ec cache trace).2.2.count n ≤ 1) := by
  intro left right ec cache trace
  induction left, right, ec, cache, trace using searchLoop.induct extract files target with
  | case1 left right ec cache trace hlr s e hlook hc =>
    intro h0 hlt hmem hec hcount
    rw [searchLoop.eq_def, dif_pos hlr, hlook]
    dsimp only
    rw [if_pos hc]
    dsimp only
    refine ⟨fun p hp => hp, hmem, ?_, Nat.le_add_right _ _, ?_⟩
    · intro nm hnm
      obtain rfl : _ = nm := Option.some.inj hnm
      exact probeName_mem h0 hlr hlt
    · intro hs
      have h1 := hcount hs
      split at h1 <;> omega
  | case2 left right ec cache trace hlr s e hlook hnc hts ih =>
    intro h0 hlt hmem hec hcount
    have hm := midIndex_bounds hlr
    rw [searchLoop.eq_def, dif_pos hlr, hlook]
    dsimp only
    rw [if_neg hnc, if_pos hts]
    exact ih h0 (by omega) hmem hec hcount
  | case3 left right ec cache trace hlr s e hlook hnc hts ih =>
    intro h0 hlt hmem hec hcount
    have hm := midIndex_bounds hlr
    rw [searchLoop.eq_def, dif_pos hlr, hlook]
    dsimp only
    rw [if_neg hnc, if_neg hts]
    exact ih (by omega) hlt hmem hec hcount
  | case4 left right ec cache trace hlr hlook hx hbrk =>
    intro h0 hlt hmem hec hcount
    rw [searchLoop.eq_def, dif_pos hlr, hlook]
    dsimp only
    rw [hx]
    dsimp only
    rw [if_pos hbrk]
    dsimp only
    refine ⟨fun p hp => hp, hmem, fun nm h => Option.noConfusion h, ?_, ?_⟩
    · have hft : ((trace ++ [probeName files left right]).filter
          (fun nm => (extract nm).isNone)).length =
          (trace.filter (fun nm => (extract nm).isNone)).length + 1 := by
        simp [hx]
      omega
    · intro hs
      have hne : ¬ probeName files left right = n := by
        intro heq
        rw [heq] at hx
        rw [hx] at hs
        cases hs
      have h1 := hcount hs
      rw [List.count_append, count_singleton_le hne]
      split at h1 <;> omega
  | case5 left right ec cache trace hlr hlook hx hbrk hmid ih =>
    intro h0 hlt hmem hec hcount
    have hm := midIndex_bounds hlr
    rw [searchLoop.eq_def, dif_pos hlr, hlook]
    dsimp only
    rw [hx]
    dsimp only
    rw [if_neg hbrk, if_pos hmid]
    have hne : ∀ _ : (extract n).isSome, ¬ probeName files left right = n := by
      intro hs heq
      rw [heq] at hx
      rw [hx] at hs
      cases hs
    obtain ⟨i1, i2, i3, i4, i5⟩ := ih h0 (by omega) hmem (by omega) (by
      intro hs
      rw [List.count_append, count_singleton_le (hne hs)]
      simpa using hcount hs)
    refine ⟨i1, i2, i3, ?_, i5⟩
    have hft : ((trace ++ [probeName files left right]).filter
        (fun nm => (extract nm).isNone)).length =
        (trace.filter (fun nm => (extract nm).isNone)).length + 1 := by
      simp [hx]
    omega
  | case6 left right ec cache trace hlr hlook hx hbrk hmid ih =>
    intro h0 hlt hmem hec hcount
    have hm := midIndex_bounds hlr
    rw [searchLoop.eq_def, dif_pos hlr, hlook]
    dsimp only
    rw [hx]
    dsimp only
    rw [if_neg hbrk, if_neg hmid]
    have hne : ∀ _ : (extract n).isSome, ¬ probeName files left right = n := by
      intro hs heq
      rw [heq] at hx
      rw [hx] at hs
      cases hs
    obtain ⟨i1, i2, i3, i4, i5⟩ := ih (by omega) hlt hmem (by omega) (by
      intro hs
      rw [List.count_append, count_singleton_le (hne hs)]
      simpa using hcount hs)
    refine ⟨i1, i2, i3, ?_, i5⟩
    have hft : ((trace ++ [probeName files left right]).filter
        (fun nm => (extract nm).isNone)).length =
        (trace.filter (fun nm => (extract nm).isNone)).length + 1 := by
      simp [hx]
    omega
  | case7 left right ec cache trace hlr hlook s e hx hc =>
    intro h0 hlt hmem hec hcount
    rw [searchLoop.eq_def, dif_pos hlr, hlook]
    dsimp only
    rw [hx]
    dsimp only
    rw [if_pos hc]
    dsimp only
    refine ⟨fun p hp => List.mem_append_left _ hp, ?_, ?_, ?_, ?_⟩
    · intro p hp
      rcases List.mem_append.mp hp with hp | hp
      · exact hmem p hp
      · obtain rfl : p = _ := List.mem_singleton.mp hp
        exact probeName_mem h0 hlr hlt
    · intro nm hnm
      obtain rfl : _ = nm := Option.some.inj hnm
      exact probeName_mem h0 hlr hlt
    · simp [hx]
    · intro hs
      have h1 := hcount hs
      by_cases hn : probeName files left right = n
      · rw [hn] at hlook
        rw [hlook] at h1
        simp at h1
        rw [List.count_append]
        have hc1 : List.count n [n] = 1 := by simp
        rw [hn, hc1]
        omega
      · rw [List.count_append, count_singleton_le hn]
        split at h1 <;> omega
  | case8 left right ec cache trace hlr hlook s e hx hnc hts ih =>
    intro h0 hlt hmem hec hcount
    have hm := midIndex_bounds hlr
    rw [searchLoop.eq_def, dif_pos hlr, hlook]
    dsimp only
    rw [hx]
    dsimp only
    rw [if_neg hnc, if_pos hts]
    have hmem2 : ∀ p ∈ cache ++ [(probeName files left right, s, e)], p.1 ∈ files := by
      intro p hp
      rcases List.mem_append.mp hp with hp | hp
      · exact hmem p hp
      · obtain rfl : p = _ := List.mem_singleton.mp hp
        exact probeName_mem h0 hlr hlt
    have hcount2 : (extract n).isSome →
        (trace ++ [probeName files left right]).count n ≤
          (if (List.lookup n (cache ++ [(probeName files left right, s, e)])).isSome
            then 1 else 0) := by
      intro hs
      have h1 := hcount hs
      by_cases hn : probeName files left right = n
      · rw [hn] at hlook ⊢
        rw [hlook] at h1
        simp at h1
        rw [List.count_append, lookup_append_none hlook]
        have hc1 : List.count n [n] = 1 := by simp
        rw [hc1]
        simp [List.lookup]
        omega
      · rw [List.count_append, count_singleton_le hn]
        rcases hl2 : List.lookup n cache with _ | v
        · rw [hl2] at h1
          simp at h1
          omega
        · rw [lookup_append_some hl2]
          rw [hl2] at h1
          simpa using h1
    obtain ⟨i1, i2, i3, i4, i5⟩ := ih h0 (by omega) hmem2 hec hcount2
    refine ⟨fun p hp => i1 p (List.mem_append_left _ hp), i2, i3, ?_, i5⟩
    have hft : ((trace ++ [probeName files left right]).filter
        (fun nm => (extract nm).isNone)).length =
        (trace.filter (fun nm => (extract nm).isNone)).length := by
      simp [hx]
    omega
  | case9 left right ec cache trace hlr hlook s e hx hnc hts ih =>
    intro h0 hlt hmem hec hcount
    have hm := midIndex_bounds hlr
    rw [searchLoop.eq_def, dif_pos hlr, hlook]
    dsimp only
    rw [hx]
    dsimp only
    rw [if_neg hnc, if_neg hts]
    have hmem2 : ∀ p ∈ cache ++ [(probeName files left right, s, e)], p.1 ∈ files := by
      intro p hp
      rcases List.mem_append.mp hp with hp | hp
      · exact hmem p hp
      · obtain rfl : p = _ := List.mem_singleton.mp hp
        exact probeName_mem h0 hlr hlt
    have hcount2 : (extract n).isSome →
        (trace ++ [probeName files left right]).count n ≤
          (if (List.lookup n (cache ++ [(probeName files left right, s, e)])).isSome
            then 1 else 0) := by
      intro hs
      have h1 := hcount hs
      by_cases hn : probeName files left right = n
      · rw [hn] at hlook ⊢
        rw [hlook] at h1
        simp at h1
        rw [List.count_append, lookup_append_none hlook]
        have hc1 : List.count n [n] = 1 := by simp
        rw [hc1]
        simp [List.lookup]
        omega
      · rw [List.count_append, count_singleton_le hn]
        rcases hl2 : List.lookup n cache with _ | v
        · rw [hl2] at h1
          simp at h1
          omega
        · rw [lookup_append_some hl2]
          rw [hl2] at h1
          simpa using h1
    obtain ⟨i1, i2, i3, i4, i5⟩ := ih (by omega) hlt hmem2 hec hcount2
    refine ⟨fun p hp => i1 p (List.mem_append_left _ hp), i2, i3, ?_, i5⟩
    have hft : ((trace ++ [probeName files left right]).filter
        (fun nm => (extract nm).isNone)).length =
        (trace.filter (fun nm => (extract nm).isNone)).length := by
      simp [hx]
    omega
  | case10 left right ec cache trace hnlr =>
    intro h0 hlt hmem hec hcount
    rw [searchLoop.eq_def, dif_neg hnlr]
    dsimp only
    refine ⟨fun p hp => hp, hmem, fun nm h => Option.noConfusion h, Nat.le_add_right _ _, ?_⟩
    intro hs
    have h1 := hcount hs
    split at h1 <;> omega

lemma lookup_some_mem {cache : List (String × Int × Int)} {k : String}
    {v : Int × Int} (h : List.lookup k cache = some v) : (k, v) ∈ cache := by
  induction cache with
  | nil => simp [List.lookup] at h
  | cons p rest ih =>
    obtain ⟨k', v'⟩ := p
    cases hkp : (k == k') with
    | true =>
      simp only [List.lookup, hkp] at h
      obtain rfl : v' = v := Option.some.inj h
      obtain rfl : k = k' := eq_of_beq hkp
      exact List.mem_cons_self _ _
    | false =>
      simp only [List.lookup, hkp] at h
      exact List.mem_cons_of_mem _ (ih h)

lemma contain_unique {files : List String} {target : Int} {s e : Nat → Int}
    (hmono : ∀ k, k < files.length → ∀ j, j < k → e j < s k)
    {j k : Nat} (hj : j < files.length) (hk : k < files.length)
    (hcj : s j ≤ target ∧ target ≤ e j) (hck : s k ≤ target ∧ target ≤ e k) :
    j = k := by
  rcases lt_trichotomy j k with h | h | h
  · exfalso
    have := hmono k hk j h
    omega
  · exact h
  · exfalso
    have := hmono j hj k h
    omega

lemma cache_entry_rng {extract : String → Option (Int × Int)} {files : List String}
    {s e : Nat → Int} {cache : List (String × Int × Int)}
    (hext : ∀ j, j < files.length → extract (files.getD j ("")) = some (s j, e j))
    (hcache : ∀ p ∈ cache,
      ∃ j, j < files.length ∧ files.getD j ("") = p.1 ∧ p.2 = (s j, e j))
    {nm : String} {sv ev : Int} (hlook : List.lookup nm cache = some (sv, ev))
    {m : Nat} (hnm : nm = files.getD m ("")) (hm : m < files.length) :
    sv = s m ∧ ev = e m := by
  obtain ⟨j, hj, hname, hval⟩ := hcache (nm, sv, ev) (lookup_some_mem hlook)
  have hname2 : files.getD j ("") = nm := hname
  have hval2 : (sv, ev) = (s j, e j) := hval
  have h1 : extract nm = some (s j, e j) := by rw [← hname2]; exact hext j hj
  have h2 : extract nm = some (s m, e m) := by rw [hnm]; exact hext m hm
  have h3 := h1.symm.trans h2
  simp only [Option.some.injEq, Prod.mk.injEq] at h3
  simp only [Prod.mk.injEq] at hval2
  exact ⟨hval2.1.trans h3.1, hval2.2.trans h3.2⟩

lemma searchLoop_exact (extract : String → Option (Int × Int)) (files : List String)
    (target : Int) (s e : Nat → Int) (i : Nat)
    (hext : ∀ j, j < files.length → extract (files.getD j ("")) = some (s j, e j))
    (hwf : ∀ j, j < files.length → s j ≤ e j)
    (hmono : ∀ k, k < files.length → ∀ j, j < k → e j < s k)
    (hi : i < files.length) (hlo : s i ≤ target) (hhi : target ≤ e i) :
    ∀ (left right : Int) (ec : Nat) (cache : List (String × Int × Int))
      (trace : List String),
      0 ≤ left → right < (files.length : Int) →
      left ≤ (i : Int) → (i : Int) ≤ right →
      (∀ p ∈ cache,
        ∃ j, j < files.length ∧ files.getD j ("") = p.1 ∧ p.2 = (s j, e j)) →
      (searchLoop extract files target left right ec cache trace).1 =
        some (files.getD i ("")) := by
  intro left right ec cache trace
  induction left, right, ec, cache, trace using searchLoop.induct extract files target with
  | case1 left right ec cache trace hlr sv ev hlook hc =>
    intro h0 hlt hli hir hcache
    have hm := midIndex_bounds hlr
    have hmn : (midIndex left right).toNat < files.length := by omega
    obtain ⟨hs1, he1⟩ := cache_entry_rng hext hcache hlook rfl hmn
    subst hs1; subst he1
    have heq : (midIndex left right).toNat = i :=
      contain_unique hmono hmn hi hc ⟨hlo, hhi⟩
    rw [searchLoop.eq_def, dif_pos hlr, hlook]
    dsimp only
    rw [if_pos hc]
    dsimp only
    rw [probeName, heq]
  | case2 left right ec cache trace hlr sv ev hlook hnc hts ih =>
    intro h0 hlt hli hir hcache
    have hm := midIndex_bounds hlr
    have hmn : (midIndex left right).toNat < files.length := by omega
    obtain ⟨hs1, he1⟩ := cache_entry_rng hext hcache hlook rfl hmn
    subst hs1; subst he1
    rw [searchLoop.eq_def, dif_pos hlr, hlook]
    dsimp only
    rw [if_neg hnc, if_pos hts]
    have hlim : i < (midIndex left right).toNat := by
      rcases lt_trichotomy i ((midIndex left right).toNat) with h | h | h
      · exact h
      · exfalso; rw [h] at hlo; omega
      · exfalso
        have h1 := hmono i hi ((midIndex left right).toNat) h
        have h2 := hwf ((midIndex left right).toNat) hmn
        omega
    exact ih h0 (by omega) hli (by omega) hcache
  | case3 left right ec cache trace hlr sv ev hlook hnc hts ih =>
    intro h0 hlt hli hir hcache
    have hm := midIndex_bounds hlr
    have hmn : (midIndex left right).toNat < files.length := by omega
    obtain ⟨hs1, he1⟩ := cache_entry_rng hext hcache hlook rfl hmn
    subst hs1; subst he1
    rw [searchLoop.eq_def, dif_pos hlr, hlook]
    dsimp only
    rw [if_neg hnc, if_neg hts]
    have hgt : e ((midIndex left right).toNat) < target := by
      rcases lt_or_le (e ((midIndex left right).toNat)) target with h | h
      · exact h
      · exact absurd ⟨by omega, h⟩ hnc
    have hlim : (midIndex left right).toNat < i := by
      rcases lt_trichotomy ((midIndex left right).toNat) i with h | h | h
      · exact h
      · exfalso; rw [h] at hgt; omega
      · exfalso
        have h1 := hmono ((midIndex left right).toNat) hmn i h
        omega
    exact ih (by omega) hlt (by omega) hir hcache
  | case4 left right ec cache trace hlr hlook hx hbrk =>
    intro h0 hlt hli hir hcache
    exfalso
    have hm := midIndex_bounds hlr
    have hmn : (midIndex left right).toNat < files.length := by omega
    have hby : extract (probeName files left right) =
        some (s ((midIndex left right).toNat), e ((midIndex left right).toNat)) := by
      rw [probeName]; exact hext _ hmn
    rw [hx] at hby
    cases hby
  | case5 left right ec cache trace hlr hlook hx hbrk hmid ih =>
    intro h0 hlt hli hir hcache
    exfalso
    have hm := midIndex_bounds hlr
    have hmn : (midIndex left right).toNat < files.length := by omega
    have hby : extract (probeName files left right) =
        some (s ((midIndex left right).toNat), e ((midIndex left right).toNat)) := by
      rw [probeName]; exact hext _ hmn
    rw [hx] at hby
    cases hby
  | case6 left right ec cache trace hlr hlook hx hbrk hmid ih =>
    intro h0 hlt hli hir hcache
    exfalso
    have hm := midIndex_bounds hlr
    have hmn : (midIndex left right).toNat < files.length := by omega
    have hby : extract (probeName files left right) =
        some (s ((midIndex left right).toNat), e ((midIndex left right).toNat)) := by
      rw [probeName]; exact hext _ hmn
    rw [hx] at hby
    cases hby
  | case7 left right ec cache trace hlr hlook sv ev hx hc =>
    intro h0 hlt hli hir hcache
    have hm := midIndex_bounds hlr
    have hmn : (midIndex left right).toNat < files.length := by omega
    obtain ⟨hs1, he1⟩ : sv = s ((midIndex left right).toNat) ∧
        ev = e ((midIndex left right).toNat) := by
      have h2 : extract (probeName files left right) =
          some (s ((midIndex left right).toNat), e ((midIndex left right).toNat)) := by
        rw [probeName]; exact hext _ hmn
      have h3 := hx.symm.trans h2
      simp only [Option.some.injEq, Prod.mk.injEq] at h3
      exact h3
    subst hs1; subst he1
    have heq : (midIndex left right).toNat = i :=
      contain_unique hmono hmn hi hc ⟨hlo, hhi⟩
    rw [searchLoop.eq_def, dif_pos hlr, hlook]
    dsimp only
    rw [hx]
    dsimp only
    rw [if_pos hc]
    dsimp only
    rw [probeName, heq]
  | case8 left right ec cache trace hlr hlook sv ev hx hnc hts ih =>
    intro h0 hlt hli hir hcache
    have hm := midIndex_bounds hlr
    have hmn : (midIndex left right).toNat < files.length := by omega
    obtain ⟨hs1, he1⟩ : sv = s ((midIndex left right).toNat) ∧
        ev = e ((midIndex left right).toNat) := by
      have h2 : extract (probeName files left right) =
          some (s ((midIndex left right).toNat), e ((midIndex left right).toNat)) := by
        rw [probeName]; exact hext _ hmn
      have h3 := hx.symm.trans h2
      simp only [Option.some.injEq, Prod.mk.injEq] at h3
      exact h3
    subst hs1; subst he1
    rw [searchLoop.eq_def, dif_pos hlr, hlook]
    dsimp only
    rw [hx]
    dsimp only
    rw [if_neg hnc, if_pos hts]
    have hlim : i < (midIndex left right).toNat := by
      rcases lt_trichotomy i ((midIndex left right).toNat) with h | h | h
      · exact h
      · exfalso; rw [h] at hlo; omega
      · exfalso
        have h1 := hmono i hi ((midIndex left right).toNat) h
        have h2 := hwf ((midIndex left right).toNat) hmn
        omega
    refine ih h0 (by omega) hli (by omega) ?_
    intro p hp
    rcases List.mem_append.mp hp with hp | hp
    · exact hcache p hp
    · obtain rfl : p = _ := List.mem_singleton.mp hp
      exact ⟨(midIndex left right).toNat, hmn, by rw [probeName], rfl⟩
  | case9 left right ec cache trace hlr hlook sv ev hx hnc hts ih =>
    intro h0 hlt hli hir hcache
    have hm := midIndex_bounds hlr
    have hmn : (midIndex left right).toNat < files.length := by omega
    obtain ⟨hs1, he1⟩ : sv = s ((midIndex left right).toNat) ∧
        ev = e ((midIndex left right).toNat) := by
      have h2 : extract (probeName files left right) =
          some (s ((midIndex left right).toNat), e ((midIndex left right).toNat)) := by
        rw [probeName]; exact hext _ hmn
      have h3 := hx.symm.trans h2
      simp only [Option.some.injEq, Prod.mk.injEq] at h3
      exact h3
    subst hs1; subst he1
    rw [searchLoop.eq_def, dif_pos hlr, hlook]
    dsimp only
    rw [hx]
    dsimp only
    rw [if_neg hnc, if_neg hts]
    have hgt : e ((midIndex left right).toNat) < target := by
      rcases lt_or_le (e ((midIndex left right).toNat)) target with h | h
      · exact h
      · exact absurd ⟨by omega, h⟩ hnc
    have hlim : (midIndex left right).toNat < i := by
      rcases lt_trichotomy ((midIndex left right).toNat) i with h | h | h
      · exact h
      · exfalso; rw [h] at hgt; omega
      · exfalso
        have h1 := hmono ((midIndex left right).toNat) hmn i h
        omega
    refine ih (by omega) hlt (by omega) hir ?_
    intro p hp
    rcases List.mem_append.mp hp with hp | hp
    · exact hcache p hp
    · obtain rfl : p = _ := List.mem_singleton.mp hp
      exact ⟨(midIndex left right).toNat, hmn, by rw [probeName], rfl⟩
  | case10 left right ec cache trace hnlr =>
    intro h0 hlt hli hir hcache
    exfalso
    omega

lemma searchLoop_after (extract : String → Option (Int × Int)) (files : List String)
    (target : Int) (s e : Nat → Int)
    (hext : ∀ j, j < files.length → extract (files.getD j ("")) = some (s j, e j))
    (hwf : ∀ j, j < files.length → s j ≤ e j)
    (hmono : ∀ k, k < files.length → ∀ j, j < k → e j < s k)
    (hafter : e (files.length - 1) < target) :
    ∀ (left right : Int) (ec : Nat) (cache : List (String × Int × Int))
      (trace : List String),
      0 ≤ left → right = (files.length : Int) - 1 →
      (∀ p ∈ cache,
        ∃ j, j < files.length ∧ files.getD j ("") = p.1 ∧ p.2 = (s j, e j)) →
      (searchLoop extract files target left right ec cache trace).1 = none ∧
      (∀ p ∈ cache, p ∈ (searchLoop extract files target left right ec cache trace).2.1) ∧
      (∀ p ∈ (searchLoop extract files target left right ec cache trace).2.1,
        ∃ j, j < files.length ∧ files.getD j ("") = p.1 ∧ p.2 = (s j, e j)) ∧
      (left ≤ right →
        (files.getD (files.length - 1) (""), s (files.length - 1), e (files.length - 1)) ∈
          (searchLoop extract files target left right ec cache trace).2.1) := by
  intro left right ec cache trace
  induction left, right, ec, cache, trace using searchLoop.induct extract files target with
  | case1 left right ec cache trace hlr sv ev hlook hc =>
    intro h0 hre hcache
    exfalso
    have hm := midIndex_bounds hlr
    have hmn : (midIndex left right).toNat < files.length := by omega
    obtain ⟨hs1, he1⟩ := cache_entry_rng hext hcache hlook rfl hmn
    subst hs1; subst he1
    have hemt : e ((midIndex left right).toNat) < target := by
      rcases Nat.lt_or_ge ((midIndex left right).toNat) (files.length - 1) with h | h
      · have h1 := hmono (files.length - 1) (by omega) ((midIndex left right).toNat) h
        have h2 := hwf (files.length - 1) (by omega)
        omega
      · have heq : (midIndex left right).toNat = files.length - 1 := by omega
        rw [heq]
        exact hafter
    omega
  | case2 left right ec cache trace hlr sv ev hlook hnc hts ih =>
    intro h0 hre hcache
    exfalso
    have hm := midIndex_bounds hlr
    have hmn : (midIndex left right).toNat < files.length := by omega
    obtain ⟨hs1, he1⟩ := cache_entry_rng hext hcache hlook rfl hmn
    subst hs1; subst he1
    have hemt : e ((midIndex left right).toNat) < target := by
      rcases Nat.lt_or_ge ((midIndex left right).toNat) (files.length - 1) with h | h
      · have h1 := hmono (files.length - 1) (by omega) ((midIndex left right).toNat) h
        have h2 := hwf (files.length - 1) (by omega)
        omega
      · have heq : (midIndex left right).toNat = files.length - 1 := by omega
        rw [heq]
        exact hafter
    have h2 := hwf ((midIndex left right).toNat) hmn
    omega
  | case3 left right ec cache trace hlr sv ev hlook hnc hts ih =>
    intro h0 hre hcache
    have hm := midIndex_bounds hlr
    have hmn : (midIndex left right).toNat < files.length := by omega
    obtain ⟨hs1, he1⟩ := cache_entry_rng hext hcache hlook rfl hmn
    subst hs1; subst he1
    rw [searchLoop.eq_def, dif_pos hlr, hlook]
    dsimp only
    rw [if_neg hnc, if_neg hts]
    obtain ⟨i1, i2, i3, i4⟩ := ih (by omega) hre hcache
    refine ⟨i1, i2, i3, fun _ => ?_⟩
    rcases le_or_lt (midIndex left right + 1) right with hcase | hcase
    · exact i4 hcase
    · have heq : (midIndex left right).toNat = files.length - 1 := by omega
      have hpn : probeName files left right = files.getD (files.length - 1) ("") := by
        rw [probeName, heq]
      apply i2
      have := lookup_some_mem hlook
      rw [hpn] at this
      rw [← heq] at this
      rw [heq] at this
      exact this
  | case4 left right ec cache trace hlr hlook hx hbrk =>
    intro h0 hre hcache
    exfalso
    have hm := midIndex_bounds hlr
    have hmn : (midIndex left right).toNat < files.length := by omega
    have hby : extract (probeName files left right) =
        some (s ((midIndex left right).toNat), e ((midIndex left right).toNat)) := by
      rw [probeName]; exact hext _ hmn
    rw [hx] at hby
    cases hby
  | case5 left right ec cache trace hlr hlook hx hbrk hmid ih =>
    intro h0 hre hcache
    exfalso
    have hm := midIndex_bounds hlr
    have hmn : (midIndex left right).toNat < files.length := by omega
    have hby : extract (probeName files left right) =
        some (s ((midIndex left right).toNat), e ((midIndex left right).toNat)) := by
      rw [probeName]; exact hext _ hmn
    rw [hx] at hby
    cases hby
  | case6 left right ec cache trace hlr hlook hx hbrk hmid ih =>
    intro h0 hre hcache
    exfalso
    have hm := midIndex_bounds hlr
    have hmn : (midIndex left right).toNat < files.length := by omega
    have hby : extract (probeName files left right) =
        some (s ((midIndex left right).toNat), e ((midIndex left right).toNat)) := by
      rw [probeName]; exact hext _ hmn
    rw [hx] at hby
    cases hby
  | case7 left right ec cache trace hlr hlook sv ev hx hc =>
    intro h0 hre hcache
    exfalso
    have hm := midIndex_bounds hlr
    have hmn : (midIndex left right).toNat < files.length := by omega
    obtain ⟨hs1, he1⟩ : sv = s ((midIndex left right).toNat) ∧
        ev = e ((midIndex left right).toNat) := by
      have h2 : extract (probeName files left right) =
          some (s ((midIndex left right).toNat), e ((midIndex left right).toNat)) := by
        rw [probeName]; exact hext _ hmn
      have h3 := hx.symm.trans h2
      simp only [Option.some.injEq, Prod.mk.injEq] at h3
      exact h3
    subst hs1; subst he1
    have hemt : e ((midIndex left right).toNat) < target := by
      rcases Nat.lt_or_ge ((midIndex left right).toNat) (files.length - 1) with h | h
      · have h1 := hmono (files.length - 1) (by omega) ((midIndex left right).toNat) h
        have h2 := hwf (files.length - 1) (by omega)
        omega
      · have heq : (midIndex left right).toNat = files.length - 1 := by omega
        rw [heq]
        exact hafter
    omega
  | case8 left right ec cache trace hlr hlook sv ev hx hnc hts ih =>
    intro h0 hre hcache
    exfalso
    have hm := midIndex_bounds hlr
    have hmn : (midIndex left right).toNat < files.length := by omega
    obtain ⟨hs1, he1⟩ : sv = s ((midIndex left right).toNat) ∧
        ev = e ((midIndex left right).toNat) := by
      have h2 : extract (probeName files left right) =
          some (s ((midIndex left right).toNat), e ((midIndex left right).toNat)) := by
        rw [probeName]; exact hext _ hmn
      have h3 := hx.symm.trans h2
      simp only [Option.some.injEq, Prod.mk.injEq] at h3
      exact h3
    subst hs1; subst he1
    have hemt : e ((midIndex left right).toNat) < target := by
      rcases Nat.lt_or_ge ((midIndex left right).toNat) (files.length - 1) with h | h
      · have h1 := hmono (files.length - 1) (by omega) ((midIndex left right).toNat) h
        have h2 := hwf (files.length - 1) (by omega)
        omega
      · have heq : (midIndex left right).toNat = files.length - 1 := by omega
        rw [heq]
        exact hafter
    have h2 := hwf ((midIndex left right).toNat) hmn
    omega
  | case9 left right ec cache trace hlr hlook sv ev hx hnc hts ih =>
    intro h0 hre hcache
    have hm := midIndex_bounds hlr
    have hmn : (midIndex left right).toNat < files.length := by omega
    obtain ⟨hs1, he1⟩ : sv = s ((midIndex left right).toNat) ∧
        ev = e ((midIndex left right).toNat) := by
      have h2 : extract (probeName files left right) =
          some (s ((midIndex left right).toNat), e ((midIndex left right).toNat)) := by
        rw [probeName]; exact hext _ hmn
      have h3 := hx.symm.trans h2
      simp only [Option.some.injEq, Prod.mk.injEq] at h3
      exact h3
    subst hs1; subst he1
    rw [searchLoop.eq_def, dif_pos hlr, hlook]
    dsimp only
    rw [hx]
    dsimp only
    rw [if_neg hnc, if_neg hts]
    have hcache2 : ∀ p ∈ cache ++
        [(probeName files left right, s ((midIndex left right).toNat),
          e ((midIndex left right).toNat))],
        ∃ j, j < files.length ∧ files.getD j ("") = p.1 ∧ p.2 = (s j, e j) := by
      intro p hp
      rcases List.mem_append.mp hp with hp | hp
      · exact hcache p hp
      · obtain rfl : p = _ := List.mem_singleton.mp hp
        exact ⟨(midIndex left right).toNat, hmn, by rw [probeName], rfl⟩
    obtain ⟨i1, i2, i3, i4⟩ := ih (by omega) hre hcache2
    refine ⟨i1, fun p hp => i2 p (List.mem_append_left _ hp), i3, fun _ => ?_⟩
    rcases le_or_lt (midIndex left right + 1) right with hcase | hcase
    · exact i4 hcase
    · have heq : (midIndex left right).toNat = files.length - 1 := by omega
      apply i2
      apply List.mem_append_right
      apply List.mem_singleton.mpr
      rw [probeName, heq]
  | case10 left right ec cache trace hnlr =>
    intro h0 hre hcache
    rw [searchLoop.eq_def, dif_neg hnlr]
    dsimp only
    exact ⟨rfl, fun p hp => hp, hcache, fun hlr => absurd hlr hnlr⟩

lemma fallbackClosest_mem (target : Int) :
    ∀ (cache : List (String × Int × Int)) (acc : String × Int),
      fallbackClosest target cache acc = acc ∨
      ((fallbackClosest target cache acc).2 ≤ target ∧
        ∃ sv, ((fallbackClosest target cache acc).1, sv,
          (fallbackClosest target cache acc).2) ∈ cache) := by
  intro cache
  induction cache with
  | nil => intro acc; exact Or.inl rfl
  | cons p rest ih =>
    intro acc
    obtain ⟨n, sv, ev⟩ := p
    rw [fallbackClosest]
    by_cases hq : ev ≤ target
    · rw [if_pos hq]
      by_cases hupd : acc.1 = "" ∨ acc.2 < ev
      · rw [if_pos hupd]
        rcases ih (n, ev) with h | h
        · right
          rw [h]
          exact ⟨hq, sv, List.mem_cons_self _ _⟩
        · right
          exact ⟨h.1, h.2.choose, List.mem_cons_of_mem _ h.2.choose_spec⟩
      · rw [if_neg hupd]
        rcases ih acc with h | h
        · exact Or.inl h
        · right
          exact ⟨h.1, h.2.choose, List.mem_cons_of_mem _ h.2.choose_spec⟩
    · rw [if_neg hq]
      rcases ih acc with h | h
      · exact Or.inl h
      · right
        exact ⟨h.1, h.2.choose, List.mem_cons_of_mem _ h.2.choose_spec⟩

lemma fallbackClosest_spec (target : Int) :
    ∀ (cache : List (String × Int × Int)) (acc : String × Int),
      (∀ p ∈ cache, ¬ p.1 = "") →
      ((∀ q ∈ cache, q.2.2 ≤ target → q.2.2 ≤ (fallbackClosest target cache acc).2) ∧
       (¬ acc.1 = "" → ¬ (fallbackClosest target cache acc).1 = "" ∧
          acc.2 ≤ (fallbackClosest target cache acc).2) ∧
       (acc.1 = "" → ((fallbackClosest target cache acc).1 = "" ↔
          ∀ q ∈ cache, ¬ q.2.2 ≤ target))) := by
  intro cache
  induction cache with
  | nil =>
    intro acc _
    refine ⟨by simp, fun h => ⟨h, le_rfl⟩, fun h => ?_⟩
    simp [fallbackClosest, h]
  | cons p rest ih =>
    intro acc hnames
    obtain ⟨n, sv, ev⟩ := p
    have hn : ¬ n = "" := hnames (n, sv, ev) (List.mem_cons_self _ _)
    have hnames' : ∀ p ∈ rest, ¬ p.1 = "" :=
      fun p hp => hnames p (List.mem_cons_of_mem _ hp)
    rw [fallbackClosest]
    by_cases hq : ev ≤ target
    · rw [if_pos hq]
      by_cases hupd : acc.1 = "" ∨ acc.2 < ev
      · rw [if_pos hupd]
        obtain ⟨j1, j2, j3⟩ := ih (n, ev) hnames'
        have hR := j2 hn
        refine ⟨?_, ?_, ?_⟩
        · intro q hqm hqt
          rcases List.mem_cons.mp hqm with rfl | hqm
          · exact hR.2
          · exact j1 q hqm hqt
        · intro hacc
          rcases hupd with hupd | hupd
          · exact absurd hupd hacc
          · exact ⟨hR.1, le_trans (le_of_lt hupd) hR.2⟩
        · intro hacc
          constructor
          · intro hcontra
            exact absurd hcontra hR.1
          · intro hall
            exact absurd hq (hall (n, sv, ev) (List.mem_cons_self _ _))
      · rw [if_neg hupd]
        push_neg at hupd
        obtain ⟨j1, j2, j3⟩ := ih acc hnames'
        have hR := j2 hupd.1
        refine ⟨?_, ?_, ?_⟩
        · intro q hqm hqt
          rcases List.mem_cons.mp hqm with rfl | hqm
          · exact le_trans hupd.2 hR.2
          · exact j1 q hqm hqt
        · intro _
          exact hR
        · intro hacc
          exact absurd hacc hupd.1
    · rw [if_neg hq]
      obtain ⟨j1, j2, j3⟩ := ih acc hnames'
      refine ⟨?_, j2, ?_⟩
      · intro q hqm hqt
        rcases List.mem_cons.mp hqm with rfl | hqm
        · exact absurd hqt hq
        · exact j1 q hqm hqt
      · intro hacc
        rw [j3 hacc]
        constructor
        · intro hall q hqm
          rcases List.mem_cons.mp hqm with rfl | hqm
          · exact hq
          · exact hall q hqm
        · intro hall q hqm
          exact hall q (List.mem_cons_of_mem _ hqm)

/-!
Claims about the range extractor
-/

/-- C10: the branch meant to skip a first self-pointing rotate event is
unreachable — its guard is never true, and deleting the `continue` does not
change the first loop on any event stream. -/
theorem rotateSkipBranchUnreachable :
    (∀ (i : Nat) (ev : BinlogEvent) (binlogFile : String),
      firstTimestampGuard i ev binlogFile = false) ∧
    (∀ (binlogFile : String) (stream : List BinlogEvent),
      findFirstTimestamp binlogFile stream = findFirstTimestampNoSkip binlogFile stream) :=
  ⟨firstTimestampGuard_eq_false,
   fun binlogFile stream => findFirstTimestampAux_eq_noSkip binlogFile 10 0 stream⟩

/-- C9: when at least 10 events are available and none of the first 10 has a
positive timestamp, extraction fails with the no-timestamp error; and when
some event among the first 10 has a positive timestamp, extraction succeeds
(so in particular that error is not returned). -/
theorem noTimestampWithinTenAttempts (binlogFile : String) (stream : List BinlogEvent) :
    (10 ≤ stream.length → (∀ ev ∈ stream.take 10, ev.timestamp = 0) →
      GetTimeRangeForBinlog binlogFile stream =
        Except.error ExtractError.noTimestampFound) ∧
    ((∃ ev ∈ stream.take 10, 0 < ev.timestamp) →
      ∃ r, GetTimeRangeForBinlog binlogFile stream = Except.ok r) := by
  constructor
  · intro hlen hzero
    unfold GetTimeRangeForBinlog findFirstTimestamp
    rw [findFirstTimestampAux_all_zero binlogFile 10 stream 0 hlen hzero]
  · intro hfound
    unfold GetTimeRangeForBinlog findFirstTimestamp
    obtain ⟨t, rest, heq⟩ := findFirstTimestampAux_found binlogFile 10 stream 0 hfound
    rw [heq]
    exact ⟨_, rfl⟩

/-- Witness for C9 at a concrete stream of ten timestampless events. -/
theorem noTimestampWithinTenAttempts_witness :
    GetTimeRangeForBinlog "seg1" (List.replicate 10 evZero) =
      Except.error ExtractError.noTimestampFound :=
  (noTimestampWithinTenAttempts "seg1" (List.replicate 10 evZero)).1
    (by decide) (by decide)

/-- C8 counterexample: on a stream whose second event has a smaller positive
timestamp than its first, extraction succeeds with start greater than end,
so the claimed invariant fails as stated. -/
theorem timeRangeOrdered_counterexample :
    GetTimeRangeForBinlog "seg1" [evAt 5, evAt 3] = Except.ok (5, 3) ∧
      ¬ ((5 : Nat) ≤ 3) :=
  ⟨rfl, by decide⟩

/-- C8 amended: on every event stream whose positive timestamps are
monotonically non-decreasing (the append-only binlog invariant), a
successful extraction returns start at most end. -/
theorem timeRangeOrdered (binlogFile : String) (stream : List BinlogEvent)
    (s e : Nat)
    (hmono : stream.Pairwise
      (fun a b => 0 < a.timestamp → 0 < b.timestamp → a.timestamp ≤ b.timestamp))
    (h : GetTimeRangeForBinlog binlogFile stream = Except.ok (s, e)) :
    s ≤ e := by
  unfold GetTimeRangeForBinlog findFirstTimestamp at h
  cases hfind : findFirstTimestampAux binlogFile 0 10 stream with
  | error err => rw [hfind] at h; cases h
  | ok pr =>
    obtain ⟨t, rest⟩ := pr
    rw [hfind] at h
    obtain ⟨hs, he⟩ : t = s ∧ scanLastTimestamp 1000 rest t = e := by
      simpa using h
    obtain ⟨hpos, pre, ev, hsplit, het⟩ :=
      findFirstTimestampAux_ok_split binlogFile 10 stream 0 t rest hfind
    subst hsplit
    have hpair := (List.pairwise_append.mp hmono).2.1
    rw [List.pairwise_cons] at hpair
    have hbound : ∀ e' ∈ rest, 0 < e'.timestamp → t ≤ e'.timestamp := by
      intro e' he' hp
      exact het ▸ hpair.1 e' he' (het ▸ hpos) hp
    calc s = t := hs.symm
      _ ≤ scanLastTimestamp 1000 rest t :=
        scanLastTimestamp_ge t 1000 rest t le_rfl hbound
      _ = e := he

/-- Witness for C8 on a concrete two-event monotone stream. -/
theorem timeRangeOrdered_witness : (3 : Nat) ≤ 5 :=
  timeRangeOrdered "seg1" [evAt 3, evAt 5] 3 5 (by decide) rfl

/-!
Claims about the search engine: single-file case
-/

/-- C4: on a one-element list, the search returns the single file, with an
exact match precisely when extraction succeeds and the target lies within
the extracted range inclusive; on extraction failure it returns the file
with exactMatch false. -/
theorem singleSegmentSearch (extract : String → Option (Int × Int)) (S : String)
    (target : Int) :
    (extract S = none → BinarySearchBinlogs extract [S] target = (S, false)) ∧
    (∀ s e, extract S = some (s, e) →
      ((BinarySearchBinlogs extract [S] target = (S, true)) ↔
        (s ≤ target ∧ target ≤ e)) ∧
      (¬ (s ≤ target ∧ target ≤ e) →
        BinarySearchBinlogs extract [S] target = (S, false))) := by
  constructor
  · intro hfail
    simp [BinarySearchBinlogs, hfail]
  · intro s e hok
    constructor
    · by_cases hc : s ≤ target ∧ target ≤ e <;>
        simp [BinarySearchBinlogs, hok, hc]
    · intro hc
      simp [BinarySearchBinlogs, hok, hc]

/-- Witness for C4: the spec's single-segment scenario, seg1 covering
100–200 with target 150. -/
theorem singleSegmentSearch_witness :
    BinarySearchBinlogs oracleScenario [("seg1")] 150 = ("seg1", true) :=
  ((singleSegmentSearch oracleScenario "seg1" 150).2 100 200 rfl).1.mpr (by decide)

/-!
Claims about the search engine: general case
-/

/-- On every non-empty file list the search returns a member of the list. -/
lemma binarySearch_result_mem (extract : String → Option (Int × Int))
    (files : List String) (target : Int) (hlen : files ≠ []) :
    (BinarySearchBinlogs extract files target).1 ∈ files := by
  have hpos : 0 < files.length := List.length_pos.mpr hlen
  obtain ⟨b1, b2, b3, b4, b5⟩ := searchLoop_basic extract files target ("") 0
    ((files.length : Int) - 1) 0 [] [] (le_refl 0) (by omega)
    (by intro p hp; cases hp) (by omega) (by intro _; simp)
  rcases Nat.lt_or_ge files.length 2 with h2 | h2
  · have h1 : files.length = 1 := by omega
    unfold BinarySearchBinlogs
    rw [if_neg (by omega), if_pos h1]
    rcases hx : extract (files.getD 0 ("")) with _ | ⟨sv, ev⟩
    · exact mem_getD_of_lt files 0 (by omega)
    · dsimp only
      by_cases hc : sv ≤ target ∧ target ≤ ev
      · rw [if_pos hc]
        exact mem_getD_of_lt files 0 (by omega)
      · rw [if_neg hc]
        exact mem_getD_of_lt files 0 (by omega)
  · unfold BinarySearchBinlogs
    rw [if_neg (by omega), if_neg (by omega)]
    rcases hres : searchLoop extract files target 0 ((files.length : Int) - 1) 0 [] []
      with ⟨found, c, t⟩
    rw [hres] at b2 b3
    cases found with
    | some nm =>
      exact b3 nm rfl
    | none =>
      dsimp only
      have hmem := fallbackClosest_mem target c ("", 0)
      by_cases hR : (fallbackClosest target c ("", 0)).1 ≠ ""
      · rw [if_pos hR]
        rcases hmem with hmem | ⟨hle, sv, hmemc⟩
        · rw [hmem] at hR
          exact absurd rfl hR
        · exact b2 _ hmemc
      · rw [if_neg hR, if_pos hpos]
        exact mem_getD_of_lt files 0 (by omega)

/-- C1: with every segment extracting successfully, well-formed ranges
(start at most end), strictly increasing disjoint ranges across the ordered
list, and the target inside segment i's range, the search returns segment i
with an exact match. -/
theorem exactSegmentFound (extract : String → Option (Int × Int))
    (files : List String) (target : Int) (s e : Nat → Int) (i : Nat)
    (hext : ∀ j, j < files.length → extract (files.getD j ("")) = some (s j, e j))
    (hwf : ∀ j, j < files.length → s j ≤ e j)
    (hmono : ∀ k, k < files.length → ∀ j, j < k → e j < s k)
    (hi : i < files.length) (hlo : s i ≤ target) (hhi : target ≤ e i) :
    BinarySearchBinlogs extract files target = (files.getD i (""), true) := by
  rcases Nat.lt_or_ge files.length 2 with h2 | h2
  · have h1 : files.length = 1 := by omega
    obtain rfl : i = 0 := by omega
    have hx := hext 0 (by omega)
    have hcontain : s 0 ≤ target ∧ target ≤ e 0 := ⟨hlo, hhi⟩
    unfold BinarySearchBinlogs
    rw [if_neg (by omega), if_pos h1, hx]
    dsimp only
    rw [if_pos hcontain]
  · have hfind := searchLoop_exact extract files target s e i hext hwf hmono hi hlo
      hhi 0 ((files.length : Int) - 1) 0 [] [] (le_refl 0) (by omega) (by omega)
      (by omega) (by intro p hp; cases hp)
    unfold BinarySearchBinlogs
    rw [if_neg (by omega), if_neg (by omega)]
    rcases hres : searchLoop extract files target 0 ((files.length : Int) - 1) 0 [] []
      with ⟨found, c, t⟩
    rw [hres] at hfind
    obtain rfl : found = some (files.getD i ("")) := hfind
    rfl

/-- Witness for C1 at the spec's scenario: seg1 100–200, seg2 201–300,
seg3 301–400, target 250 found exactly in seg2. -/
theorem exactSegmentFound_witness :
    BinarySearchBinlogs oracleScenario [("seg1"), ("seg2"), ("seg3")] 250 =
      ("seg2", true) := by
  have h := exactSegmentFound oracleScenario [("seg1"), ("seg2"), ("seg3")] 250
    (fun j => ([100, 201, 301].getD j 0 : Int)) (fun j => ([200, 300, 400].getD j 0 : Int))
    1 (by decide) (by decide) (by decide) (by decide) (by decide) (by decide)
  simpa using h

unseal searchLoop in
/-- C2 counterexample: with a file literally named by the empty string, the
fallback's empty-string sentinel conflates with the real cached file, and the
search returns a cached segment whose end (30) is not the latest cached end
at or before the target (50, held by the empty-named file). -/
theorem fallbackLatestEnd_counterexample :
    BinarySearchBinlogs oracleEmptyLate ["", "a"] 100 = ("a", false) ∧
    (searchRun oracleEmptyLate ["", "a"] 100).1 = none ∧
    ("", 0, 50) ∈ (searchRun oracleEmptyLate ["", "a"] 100).2.1 ∧
    ("a", 20, 30) ∈ (searchRun oracleEmptyLate ["", "a"] 100).2.1 ∧
    ((50 : Int) ≤ 100 ∧ ¬ ((50 : Int) ≤ 30)) :=
  ⟨rfl, rfl, by decide, by decide, by decide⟩

/-- C2 amended: provided no segment is named by the empty string, when the
loop ends without an exact match the search returns, among the successfully
cached segments, one whose end is at or before the target and maximal among
such ends; if no cached end is at or before the target, it returns the first
file. -/
theorem fallbackLatestEnd (extract : String → Option (Int × Int))
    (files : List String) (target : Int) (h2 : 2 ≤ files.length)
    (hne : ("" : String) ∉ files)
    (hnone : (searchRun extract files target).1 = none) :
    ((∃ p ∈ (searchRun extract files target).2.1, p.2.2 ≤ target) →
      ∃ p ∈ (searchRun extract files target).2.1, p.2.2 ≤ target ∧
        BinarySearchBinlogs extract files target = (p.1, false) ∧
        ∀ q ∈ (searchRun extract files target).2.1, q.2.2 ≤ target → q.2.2 ≤ p.2.2) ∧
    ((∀ p ∈ (searchRun extract files target).2.1, ¬ p.2.2 ≤ target) →
      BinarySearchBinlogs extract files target = (files.getD 0 (""), false)) := by
  obtain ⟨b1, b2, b3, b4, b5⟩ := searchLoop_basic extract files target ("") 0
    ((files.length : Int) - 1) 0 [] [] (le_refl 0) (by omega)
    (by intro p hp; cases hp) (by omega) (by intro _; simp)
  rw [searchRun] at hnone ⊢
  rcases hres : searchLoop extract files target 0 ((files.length : Int) - 1) 0 [] []
    with ⟨found, c, t⟩
  rw [hres] at hnone b2
  obtain rfl : found = none := hnone
  have hnames : ∀ p ∈ c, ¬ p.1 = "" := by
    intro p hp heq
    exact hne (heq ▸ b2 p hp)
  obtain ⟨j1, j2, j3⟩ := fallbackClosest_spec target c ("", 0) hnames
  have hmem := fallbackClosest_mem target c ("", 0)
  have hBeq : BinarySearchBinlogs extract files target =
      (if (fallbackClosest target c ("", 0)).1 ≠ "" then
        ((fallbackClosest target c ("", 0)).1, false)
      else if 0 < files.length then (files.getD 0 (""), false)
      else ("", false)) := by
    unfold BinarySearchBinlogs
    rw [if_neg (by omega), if_neg (by omega), hres]
  constructor
  · rintro ⟨q, hq, hqt⟩
    have hR1 : ¬ (fallbackClosest target c ("", 0)).1 = "" := by
      intro h0'
      exact ((j3 rfl).mp h0') q hq hqt
    rcases hmem with hmem | ⟨hle, sv, hmemc⟩
    · rw [hmem] at hR1
      exact absurd rfl hR1
    · refine ⟨_, hmemc, hle, ?_, ?_⟩
      · rw [hBeq, if_pos hR1]
      · intro q' hq' hqt'
        exact j1 q' hq' hqt'
  · intro hall
    have hR1 : (fallbackClosest target c ("", 0)).1 = "" := (j3 rfl).mpr hall
    rw [hBeq, if_neg (not_not_intro hR1), if_pos (by omega : 0 < files.length)]

unseal searchLoop in
/-- Witness for C2: the scenario oracle with target 500; the loop caches
seg2 and seg3 and the fallback picks seg3, whose end 400 is the latest at or
before 500. -/
theorem fallbackLatestEnd_witness :
    ∃ p ∈ (searchRun oracleScenario [("seg1"), ("seg2"), ("seg3")] 500).2.1,
      p.2.2 ≤ 500 ∧
      BinarySearchBinlogs oracleScenario [("seg1"), ("seg2"), ("seg3")] 500 =
        (p.1, false) ∧
      ∀ q ∈ (searchRun oracleScenario [("seg1"), ("seg2"), ("seg3")] 500).2.1,
        q.2.2 ≤ 500 → q.2.2 ≤ p.2.2 :=
  (fallbackLatestEnd oracleScenario [("seg1"), ("seg2"), ("seg3")] 500
    (by decide) (by decide) (by decide)).1 ⟨("seg2", 201, 300), by decide, by decide⟩

/-- C3: extraction failures never abort the search: the total result type
has no error channel, the loop invokes a failing extraction at most 4 times
(the counter crosses the threshold 3 and breaks), and the returned segment
is always an element of a non-empty input list. -/
theorem extractionFailureTolerance (extract : String → Option (Int × Int))
    (files : List String) (target : Int) (hlen : files ≠ []) :
    (((searchRun extract files target).2.2.filter
        (fun nm => (extract nm).isNone)).length ≤ 4) ∧
    (BinarySearchBinlogs extract files target).1 ∈ files := by
  obtain ⟨b1, b2, b3, b4, b5⟩ := searchLoop_basic extract files target ("") 0
    ((files.length : Int) - 1) 0 [] [] (le_refl 0) (by omega)
    (by intro p hp; cases hp) (by omega) (by intro _; simp)
  exact ⟨by rw [searchRun]; simpa using b4,
    binarySearch_result_mem extract files target hlen⟩

/-- Witness for C3: every extraction fails on a five-file list; the trace
records at most four failures and the result is still a file of the list. -/
theorem extractionFailureTolerance_witness :
    (((searchRun oracleFailAll [("a"), ("b"), ("c"), ("d"), ("e")] 100).2.2.filter
        (fun nm => (oracleFailAll nm).isNone)).length ≤ 4) ∧
    (BinarySearchBinlogs oracleFailAll [("a"), ("b"), ("c"), ("d"), ("e")] 100).1 ∈
      [("a"), ("b"), ("c"), ("d"), ("e")] :=
  extractionFailureTolerance oracleFailAll [("a"), ("b"), ("c"), ("d"), ("e")] 100
    (by decide)

/-- C5 counterexample: a non-empty list containing the empty-named file makes
the search return the empty string, so the claimed equivalence between an
empty result and an empty input list fails as stated. -/
theorem emptyResultSentinel_counterexample :
    BinarySearchBinlogs oracleFailAll [""] 0 = ("", false) ∧
    ([""] : List String) ≠ [] := by
  exact ⟨rfl, by decide⟩

/-- C5 amended: the empty input list yields the empty-string sentinel; any
non-empty list yields a member of the list; and provided no file is named by
the empty string, the result is the empty string exactly when the list is
empty. -/
theorem emptyResultSentinel (extract : String → Option (Int × Int))
    (files : List String) (target : Int) :
    (files = [] → BinarySearchBinlogs extract files target = ("", false)) ∧
    (files ≠ [] → (BinarySearchBinlogs extract files target).1 ∈ files) ∧
    (("" : String) ∉ files →
      ((BinarySearchBinlogs extract files target).1 = "" ↔ files = [])) := by
  refine ⟨?_, fun hlen => binarySearch_result_mem extract files target hlen, ?_⟩
  · rintro rfl
    rfl
  · intro hne
    constructor
    · intro h0
      by_contra hcon
      have hmem := binarySearch_result_mem extract files target hcon
      rw [h0] at hmem
      exact hne hmem
    · rintro rfl
      rfl

/-- Witness for C5 at the scenario list: the result name is never the empty
string because the list is non-empty and contains no empty name. -/
theorem emptyResultSentinel_witness :
    (BinarySearchBinlogs oracleScenario [("seg1"), ("seg2"), ("seg3")] 250).1 ∈
      [("seg1"), ("seg2"), ("seg3")] :=
  (emptyResultSentinel oracleScenario [("seg1"), ("seg2"), ("seg3")] 250).2.1
    (by decide)

unseal searchLoop in
/-- C6 counterexample: with the newest segment named by the empty string,
monotone disjoint ranges, all extractions succeeding and the target after
the last end, the fallback sentinel swallows the last segment's name and the
search returns the first file instead of the last. -/
theorem targetAfterLastSegment_counterexample :
    BinarySearchBinlogs oracleEmptyLast ["a", ""] 100 = ("a", false) ∧
    (["a", ""].getD 1 ("") = "") ∧
    oracleEmptyLast ("a") = some (20, 30) ∧
    oracleEmptyLast ("") = some (40, 50) ∧
    ((30 : Int) < 40 ∧ (50 : Int) < 100) ∧
    ¬ (("a", false) = (("" : String), false)) :=
  ⟨rfl, rfl, rfl, rfl, by decide, by decide⟩

/-- C6 amended: provided no segment is named by the empty string, for a
monotone, all-extracting list and a target after the last segment's end, the
search returns the last segment without an exact match. -/
theorem targetAfterLastSegment (extract : String → Option (Int × Int))
    (files : List String) (target : Int) (s e : Nat → Int)
    (hlen : files ≠ []) (hne : ("" : String) ∉ files)
    (hext : ∀ j, j < files.length → extract (files.getD j ("")) = some (s j, e j))
    (hwf : ∀ j, j < files.length → s j ≤ e j)
    (hmono : ∀ k, k < files.length → ∀ j, j < k → e j < s k)
    (hafter : e (files.length - 1) < target) :
    BinarySearchBinlogs extract files target =
      (files.getD (files.length - 1) (""), false) := by
  have hpos : 0 < files.length := List.length_pos.mpr hlen
  rcases Nat.lt_or_ge files.length 2 with h2 | h2
  · have h1 : files.length = 1 := by omega
    have hidx : files.length - 1 = 0 := by omega
    have hx := hext 0 (by omega)
    have hnc : ¬ (s 0 ≤ target ∧ target ≤ e 0) := by
      rw [hidx] at hafter
      intro hc
      omega
    unfold BinarySearchBinlogs
    rw [if_neg (by omega), if_pos h1, hx]
    dsimp only
    rw [if_neg hnc, hidx]
  · have hrun := searchLoop_after extract files target s e hext hwf hmono hafter 0
      ((files.length : Int) - 1) 0 [] [] (le_refl 0) rfl (by intro p hp; cases hp)
    obtain ⟨r1, r2, r3, r4⟩ := hrun
    have hlast := r4 (by omega)
    rcases hres : searchLoop extract files target 0 ((files.length : Int) - 1) 0 [] []
      with ⟨found, c, t⟩
    rw [hres] at r1 r3 hlast
    obtain rfl : found = none := r1
    have hnames : ∀ p ∈ c, ¬ p.1 = "" := by
      intro p hp heq
      obtain ⟨j, hj, hname, _⟩ := r3 p hp
      apply hne
      rw [← heq, ← hname]
      exact mem_getD_of_lt files j hj
    obtain ⟨j1, j2, j3⟩ := fallbackClosest_spec target c ("", 0) hnames
    have hmem := fallbackClosest_mem target c ("", 0)
    have hR1 : ¬ (fallbackClosest target c ("", 0)).1 = "" := by
      intro h0'
      exact ((j3 rfl).mp h0') _ hlast (le_of_lt hafter)
    rcases hmem with hmem | ⟨hle, sv, hmemc⟩
    · rw [hmem] at hR1
      exact absurd rfl hR1
    · obtain ⟨j, hj, hname, hval⟩ := r3 _ hmemc
      have hname2 : files.getD j ("") = (fallbackClosest target c ("", 0)).1 := hname
      have hval2 : (sv, (fallbackClosest target c ("", 0)).2) = (s j, e j) := hval
      have hRe : (fallbackClosest target c ("", 0)).2 = e j := by
        simpa using congrArg Prod.snd hval2
      have hmax : e (files.length - 1) ≤ (fallbackClosest target c ("", 0)).2 :=
        j1 _ hlast (le_of_lt hafter)
      have hjeq : j = files.length - 1 := by
        rcases Nat.lt_or_ge j (files.length - 1) with hlt | hge
        · exfalso
          have hm1 := hmono (files.length - 1) (by omega) j hlt
          have hm2 := hwf (files.length - 1) (by omega)
          omega
        · omega
      unfold BinarySearchBinlogs
      rw [if_neg (by omega), if_neg (by omega), hres]
      dsimp only
      rw [if_pos hR1]
      rw [← hname2, hjeq]

/-- Witness for C6 at the scenario list: target 500 lies after seg3's end
400, and the search answers seg3 without an exact match. -/
theorem targetAfterLastSegment_witness :
    BinarySearchBinlogs oracleScenario [("seg1"), ("seg2"), ("seg3")] 500 =
      ("seg3", false) := by
  have h := targetAfterLastSegment oracleScenario [("seg1"), ("seg2"), ("seg3")] 500
    (fun j => ([100, 201, 301].getD j 0 : Int)) (fun j => ([200, 300, 400].getD j 0 : Int))
    (by decide) (by decide) (by decide) (by decide) (by decide) (by decide)
  simpa using h

unseal searchLoop in
/-- C7 counterexample: failed extractions are not cached, so when the probe
order revisits a name whose extraction fails (duplicate names in the list),
the extractor is invoked again for it: the invocation trace holds the name
twice. -/
theorem cacheStoresFailures_counterexample :
    (searchRun oracleOnlyB [("a"), ("b"), ("a"), ("c"), ("d")] 100).2.2 =
      [("a"), ("a"), ("b")] ∧
    oracleOnlyB ("a") = none :=
  ⟨rfl, rfl⟩

/-- C7 amended: the cache stores successful outcomes only; a segment whose
extraction succeeds is extracted at most once per search, while failed
extractions are re-issued on revisits. -/
theorem successfulExtractionCachedOnce (extract : String → Option (Int × Int))
    (files : List String) (target : Int) (n : String) (v : Int × Int)
    (h : extract n = some v) :
    (searchRun extract files target).2.2.count n ≤ 1 := by
  obtain ⟨b1, b2, b3, b4, b5⟩ := searchLoop_basic extract files target n 0
    ((files.length : Int) - 1) 0 [] [] (le_refl 0) (by omega)
    (by intro p hp; cases hp) (by omega) (by intro _; simp)
  rw [searchRun]
  exact b5 (by rw [h]; rfl)

/-- Witness for C7: the successfully extracted file b appears at most once
in the trace of the duplicate-name run. -/
theorem successfulExtractionCachedOnce_witness :
    (searchRun oracleOnlyB [("a"), ("b"), ("a"), ("c"), ("d")] 100).2.2.count ("b") ≤ 1 :=
  successfulExtractionCachedOnce oracleOnlyB [("a"), ("b"), ("a"), ("c"), ("d")] 100
    ("b") (0, 10) rfl

end BinlogFindTime
